import Mathlib

/-!
Verification of the agentic ETL pipeline (Acrenox/agentic-data-lab).

Shallow embedding of the Python sources:
  * `src/etl/helpers.py`          — `clean_code_fences`, `sanitize_column_name`
  * `src/etl/transform_agent.py`  — binding enforcement in
    `generate_transformation_code`, result recovery in
    `execute_transformation`, and the retry loop `iterative_transform`
  * `src/etl/load_agent.py`       — `ai_determine_destination`,
    `load_to_duckdb`, `load`
  * `src/orchestrator/run_pipeline.py` — `ETLPipeline.run`

Strings are modelled as `List Char` where character-level reasoning is
needed (helpers, code texts) and as `String` elsewhere.  Python functions
that may raise are modelled as `Except String _` where `.error` means an
exception propagating to the caller.  Mutation of a caller-owned object is
modelled by explicit state passing (the function returns the object's
post-state).  External effects (network, filesystem, logging) are either
parameters of the embedding (the completion reply, the JSON parser, the
outcome of `exec`) or dropped when they cannot influence the claims.
-/

deriving instance DecidableEq for Except

/-! ## Python string primitives (ASCII model) -/

/-- ASCII whitespace, as recognised by Python's `str.strip` / `\s`. -/
def pyIsSpace (c : Char) : Bool :=
  c == ' ' || c == '\t' || c == '\n' || c == '\r' ||
  c == Char.ofNat 11 || c == Char.ofNat 12

/-- Python `str.strip()`: drop whitespace from both ends. -/
def pyStrip (l : List Char) : List Char :=
  ((l.dropWhile pyIsSpace).reverse.dropWhile pyIsSpace).reverse

/-- First pass of `splitlines`: rewrite the boundaries `\r\n` and `\r`
to `\n`. -/
def normalizeNewlines : List Char → List Char
  | [] => []
  | '\r' :: '\n' :: rest => '\n' :: normalizeNewlines rest
  | '\r' :: rest => '\n' :: normalizeNewlines rest
  | c :: rest => c :: normalizeNewlines rest

/-- Second pass of `splitlines`: split at `\n`; `acc` holds the current
line, reversed.  A trailing `\n` produces no trailing empty line. -/
def splitlinesAux : List Char → List Char → List (List Char)
  | [], acc => if acc.isEmpty then [] else [acc.reverse]
  | c :: rest, acc =>
      if c = '\n' then acc.reverse :: splitlinesAux rest []
      else splitlinesAux rest (c :: acc)

/-- Python `str.splitlines()` over the common line boundaries
`\n`, `\r\n`, `\r`: boundary characters removed, no trailing empty
line for a trailing boundary. -/
def splitlines (l : List Char) : List (List Char) :=
  splitlinesAux (normalizeNewlines l) []

/-- Python `'\n'.join(lines)`. -/
def joinNL : List (List Char) → List Char
  | [] => []
  | [l] => l
  | l :: ls => l ++ '\n' :: joinNL ls

/-- Python `str.isidentifier()` (ASCII model): nonempty, first character a
letter or underscore, remaining characters letters, digits or underscore. -/
def pyIsIdentifier : List Char → Bool
  | [] => false
  | c :: cs =>
      (c.isAlpha || c == '_') && cs.all (fun d => d.isAlphanum || d == '_')

/-! ## `src/etl/helpers.py` -/

/-- A fencing line: equal, after trimming, to ``` or ```python
(`line.strip() == '```' or line.strip() == '```python'`). -/
def isFenceLine (l : List Char) : Bool :=
  pyStrip l == "```".toList || pyStrip l == "```python".toList

/-- `clean_code_fences` (helpers.py:88-92): drop fencing lines, rejoin
with `'\n'.join`. -/
def clean_code_fences (code : List Char) : List Char :=
  joinNL ((splitlines code).filter (fun l => !isFenceLine l))

/-- ASCII model of Python `str.lower()` on one character. -/
def pyToLower (c : Char) : Char :=
  if 'A' ≤ c ∧ c ≤ 'Z' then Char.ofNat (c.toNat + 32) else c

/-- Python regex `\w` (ASCII model): letter, digit or underscore. -/
def isWordChar (c : Char) : Bool :=
  ('a' ≤ c && c ≤ 'z') || ('A' ≤ c && c ≤ 'Z') ||
  ('0' ≤ c && c ≤ '9') || c == '_'

/-- One step of `re.sub(r'[^\w\s]', '_', ·)`: the pattern matches single
characters, so the substitution is a character map. -/
def replaceNonWord (c : Char) : Char :=
  if isWordChar c || pyIsSpace c then c else '_'

/-- `re.sub(p+, r, ·)` for a single-character class `p`: every maximal run
of characters satisfying `p` is replaced by the single character `r`.
The flag records whether we are inside such a run. -/
def collapseRunsAux (p : Char → Bool) (r : Char) : Bool → List Char → List Char
  | _, [] => []
  | inRun, c :: cs =>
      if p c then
        if inRun then collapseRunsAux p r true cs
        else r :: collapseRunsAux p r true cs
      else c :: collapseRunsAux p r false cs

def collapseRuns (p : Char → Bool) (r : Char) (l : List Char) : List Char :=
  collapseRunsAux p r false l

/-- Python `str.strip('_')`. -/
def stripUnderscores (l : List Char) : List Char :=
  ((l.dropWhile (· == '_')).reverse.dropWhile (· == '_')).reverse

/-- No two adjacent underscores (the shape left by collapsing
underscore runs). -/
def noDD (a b : Char) : Prop := ¬(a = '_' ∧ b = '_')

/-- `sanitize_column_name` (helpers.py:94-104): lowercase, replace
non-word non-space characters by `_` (`re.sub(r'[^\w\s]','_')`), collapse
whitespace runs to `_` (`re.sub(r'\s+','_')`), collapse underscore runs
(`re.sub(r'_+','_')`), strip edge underscores. -/
def sanitize_column_name (s : List Char) : List Char :=
  let s1 := s.map pyToLower
  let s2 := s1.map replaceNonWord
  let s3 := collapseRuns pyIsSpace '_' s2
  let s4 := collapseRuns (fun c => c == '_') '_' s3
  stripUnderscores s4

/-! ## `src/etl/transform_agent.py` -/

/-- Abstract in-memory table (`pandas.DataFrame`): named columns plus an
abstract row payload. -/
structure Df where
  columns : List (List Char)
  rows : Nat
deriving DecidableEq

/-- A Python value as far as the sandbox's recovery step can tell it
apart: a DataFrame, the `None` object, or anything else (module, dict,
int, string, …) tagged by a description. -/
inductive PyVal where
  | df : Df → PyVal
  | pyNone : PyVal
  | other : String → PyVal
deriving DecidableEq

/-- `isinstance(v, pd.DataFrame)`. -/
def PyVal.isDf : PyVal → Bool
  | .df _ => true
  | _ => false

/-- Python `name.startswith('_')`. -/
def startsWithUnderscore (s : String) : Bool :=
  match s.toList with
  | '_' :: _ => true
  | _ => false

/-- The candidate scan of `execute_transformation` (transform_agent.py:
98-103): iterate over `exec_globals.items()` in insertion order, keep
DataFrame-valued bindings whose name is not `pd` or `dataframes` and does
not start with `_`. -/
def candidates (g : List (String × PyVal)) : List (String × PyVal) :=
  g.filter (fun p =>
    p.2.isDf && p.1 != "pd" && p.1 != "dataframes" && !(startsWithUnderscore p.1))

def noResultMsg : String :=
  "Transformation code did not produce \x27result_df\x27 or any other DataFrame"

/-- Result recovery of `execute_transformation` (transform_agent.py:
93-116) over the final namespace `g` (the items of `exec_globals` after
`exec`, in insertion order): take `exec_globals.get('result_df')`; if it
is `None`, fall back to the last candidate of the scan; if still `None`,
raise `ValueError`. -/
def recover_result (g : List (String × PyVal)) : Except String PyVal :=
  let r0 := (g.lookup "result_df").getD PyVal.pyNone
  let r1 :=
    if r0 = PyVal.pyNone then
      match (candidates g).getLast? with
      | some p => p.2
      | none => PyVal.pyNone
    else r0
  if r1 = PyVal.pyNone then Except.error noResultMsg else Except.ok r1

/-- `execute_transformation` (transform_agent.py:76-125).  `run` is the
outcome of `exec(code, exec_globals)`: either an exception or the final
namespace.  The `except` block (lines 121-125) logs the message and the
code and then re-raises, so both an execution exception and the
`ValueError` of the recovery step propagate to the caller (`code` only
feeds the logging side effect). -/
def execute_transformation (code : String)
    (run : Except String (List (String × PyVal))) : Except String PyVal :=
  match run with
  | Except.error e => Except.error e
  | Except.ok g => recover_result g

/-- One line of the binding-enforcement scan (transform_agent.py:61-64):
a line is picked when, after `strip`, it contains `'='`, does not start
with `'#'`, and the text before the first `'='` strips to a valid
identifier; the picked identifier is returned. -/
def lineAssignTarget (l0 : List Char) : Option (List Char) :=
  let line := pyStrip l0
  if '=' ∈ line ∧ line.head? ≠ some '#' then
    let v := pyStrip (line.takeWhile (fun c => c ≠ '='))
    if pyIsIdentifier v then some v else none
  else none

/-- Line scan of the binding-enforcement step (transform_agent.py:59-67):
walk `code.split('\n')` from the last line to the first and return the
first assignment target found. -/
def findAssignVar (ls : List (List Char)) : Option (List Char) :=
  ls.reverse.findSome? lineAssignTarget

/-- Binding enforcement inside `generate_transformation_code`
(transform_agent.py:55-67): when the substring `result_df` does not occur
in the code, append `"\n\n# Assign result\nresult_df = <var>\n"` for the
variable found by the reverse line scan; otherwise leave the code
unchanged. -/
def enforce_binding (code : List Char) : List Char :=
  if "result_df".toList <:+: code then code
  else
    match findAssignVar (code.splitOn '\n') with
    | some v => code ++ "\n\n# Assign result\nresult_df = ".toList ++ v ++ ['\n']
    | none => code

/-- Augmentation of the intent after a failed attempt
(transform_agent.py:163). -/
def augmentQuery (q e : String) : String :=
  q ++ "\n\nPrevious attempt failed with error: " ++ e ++ ". Please fix the code."

/-- Terminal error of `iterative_transform` (transform_agent.py:165);
Python renders `None` as `"None"` when no attempt ever ran. -/
def terminalMsg (maxIter : Nat) (lastErr : Option String) : String :=
  "Transformation failed after " ++ toString maxIter ++
    " attempts. Last error: " ++ (match lastErr with | some e => e | none => "None")

/-- Loop body of `iterative_transform` (transform_agent.py:148-165),
by remaining attempts; `attempt = maxIter - remaining`.  `step k q` is
the outcome of `self.transform(q, dataframes)` on attempt `k`
(synthesize → sanitize → execute); the returned list logs the intent
text passed to `transform` on each attempt, in order. -/
def iterAux (step : Nat → String → Except String Df) (maxIter : Nat) :
    Nat → String → Option String → List String → Except String Df × List String
  | 0, _, lastErr, log => (Except.error (terminalMsg maxIter lastErr), log)
  | remaining + 1, q, _, log =>
      match step (maxIter - (remaining + 1)) q with
      | Except.ok d => (Except.ok d, log ++ [q])
      | Except.error e =>
          let q' := if remaining = 0 then q else augmentQuery q e
          iterAux step maxIter remaining q' (some e) (log ++ [q])

/-- `iterative_transform` (transform_agent.py:148-165) with a log of the
intent used on each attempt. -/
def iterative_transform (step : Nat → String → Except String Df)
    (q0 : String) (maxIter : Nat) : Except String Df × List String :=
  iterAux step maxIter maxIter q0 none []

/-- The intent text used on attempt `k` when every attempt fails and the
augmentation of transform_agent.py:163 is applied after each failure:
`attemptQuery (k+1)` appends attempt `k`'s error message to
`attemptQuery k` (specification companion of `iterative_transform`). -/
def attemptQuery (step : Nat → String → Except String Df) (q0 : String) : Nat → String
  | 0 => q0
  | k + 1 =>
      match step k (attemptQuery step q0 k) with
      | Except.error e => augmentQuery (attemptQuery step q0 k) e
      | Except.ok _ => attemptQuery step q0 k

/-! ## `src/etl/load_agent.py` -/

/-- Python `dict.get(k)` over a dict modelled as its items in insertion
order. -/
def dget (d : List (String × String)) (k : String) : Option String :=
  d.lookup k

/-- Python `dict.get(k, dflt)`. -/
def dgetD (d : List (String × String)) (k dflt : String) : String :=
  (d.lookup k).getD dflt

/-- Python `d1.update(d2)`, modelled up to lookup: entries of `d2` win. -/
def dupdate (d1 d2 : List (String × String)) : List (String × String) :=
  d2 ++ d1

/-- `re.search(r'\{.*?\}', s, re.DOTALL)`: the match starts at the first
`{` and, non-greedily, ends at the first `}` after it; if no `}` follows
the first `{`, no later `{` can match either. -/
def extractBraceSpan (s : List Char) : Option (List Char) :=
  match s.dropWhile (fun c => c ≠ '{') with
  | [] => none
  | c :: rest =>
      if '}' ∈ rest then some (c :: rest.takeWhile (fun d => d ≠ '}') ++ ['}'])
      else none

/-- `ai_determine_destination` (load_agent.py:78-119).  `reply` is the
outcome of the completion call (`.error` = the call raised), `parse` is
`json.loads` returning `none` when it raises.  A parse failure is caught
by the outer `except` (→ the `"result"` fallback); a reply without a
brace span takes the explicit `"ai_result"` default. -/
def ai_determine_destination (parse : String → Option (List (String × String))) :
    Except String String → List (String × String)
  | Except.error _ =>
      [("destination", "duckdb"), ("table_name", "result"), ("reason", "Fallback")]
  | Except.ok text =>
      match extractBraceSpan text.toList with
      | some span =>
          match parse (String.mk span) with
          | some info => info
          | none =>
              [("destination", "duckdb"), ("table_name", "result"), ("reason", "Fallback")]
      | none =>
          [("destination", "duckdb"), ("table_name", "ai_result"),
           ("reason", "Default destination")]

/-- `load_to_duckdb` (load_agent.py:30-49).  The column assignment
`df.columns = [...]` mutates the caller's DataFrame; the returned first
component is that DataFrame's post-state.  The warehouse is the table
store: `replace` mode drops the table first, then
`CREATE TABLE IF NOT EXISTS … AS SELECT * FROM df` creates it only when
absent. -/
def load_to_duckdb (df : Df) (table_name : String) (mode : String)
    (warehouse : List (String × Df)) : Df × List (String × Df) :=
  let df' : Df := { df with columns := df.columns.map sanitize_column_name }
  let wh1 := if mode = "replace" then warehouse.filter (fun p => p.1 != table_name)
             else warehouse
  let wh2 := if (wh1.lookup table_name).isSome then wh1 else wh1 ++ [(table_name, df')]
  (df', wh2)

namespace LoadAgent

/-- `LoadAgent.load` (load_agent.py:121-156): resolve the destination
(explicit parameter, else the AI router with `kwargs.update(dest_info)`),
dispatch on the destination string, and raise
`ValueError("Unsupported destination: …")` on anything outside
`{duckdb, csv, excel, parquet}`.  Returns the location string together
with the post-states of the caller's DataFrame and of the warehouse. -/
def load (parse : String → Option (List (String × String)))
    (reply : Except String String) (df : Df) (destination : Option String)
    (kwargs0 : List (String × String)) (warehouse : List (String × Df)) :
    Except String (String × Df × List (String × Df)) :=
  let resolved :=
    match destination with
    | some d => (d, kwargs0)
    | none =>
        let info := ai_determine_destination parse reply
        ((dget info "destination").getD "duckdb", dupdate kwargs0 info)
  let dest := resolved.1
  let kwargs := resolved.2
  if dest = "duckdb" then
    let tn := dgetD kwargs "table_name" "result_table"
    let mode := dgetD kwargs "mode" "replace"
    let r := load_to_duckdb df tn mode warehouse
    Except.ok ("duckdb:" ++ tn, r.1, r.2)
  else if dest = "csv" then
    Except.ok (dgetD kwargs "file_path" "output/result.csv", df, warehouse)
  else if dest = "excel" then
    Except.ok (dgetD kwargs "file_path" "output/result.xlsx", df, warehouse)
  else if dest = "parquet" then
    Except.ok (dgetD kwargs "file_path" "output/result.parquet", df, warehouse)
  else
    Except.error ("Unsupported destination: " ++ dest)

end LoadAgent

/-! ## `src/orchestrator/run_pipeline.py` -/

/-- The Pipeline Run Record as far as the claims observe it: the stage
entries recorded in `results['stages']` (name, status), the final
`status`, the top-level `error`, and whether `end_time` and
`duration_seconds` were set. -/
structure RunRecord where
  query : String
  stages : List (String × String)
  status : Option String
  error : Option String
  hasEndTime : Bool
  hasDuration : Bool
deriving DecidableEq

/-- The `except` path of `ETLPipeline.run` (run_pipeline.py:164-169):
top-level `status` and `error` are set, `end_time` is set,
`duration_seconds` is not, and `stages` keeps only the entries recorded
before the exception. -/
def mkFail (q : String) (stages : List (String × String)) (e : String) : RunRecord :=
  { query := q, stages := stages, status := some "failed", error := some e,
    hasEndTime := true, hasDuration := false }

/-- The success path of `ETLPipeline.run` (run_pipeline.py:149-162). -/
def mkSuccess (q : String) (stages : List (String × String)) : RunRecord :=
  { query := q, stages := stages, status := some "success", error := none,
    hasEndTime := true, hasDuration := true }

namespace ETLPipeline

/-- `ETLPipeline.run` (run_pipeline.py:26-173).  Each stage's outcome is
a parameter (`.error` = that stage raised); the first exception jumps to
the `except` block with the stage entries recorded so far.  An extraction
returning no datasets raises `ValueError` (line 65). -/
def run (extractRes : Except String (List (String × Df)))
    (transformRes : Except String Df) (loadRes : Except String String)
    (analyzeRes : Except String String) (q : String)
    (skip_transform skip_load analyze : Bool) : RunRecord :=
  match extractRes with
  | Except.error e => mkFail q [] e
  | Except.ok data =>
      if data.isEmpty then
        mkFail q [] "No data extracted. Check data directory and file formats."
      else
        let s1 := [("extract", "success")]
        let tOut : Except String (List (String × String)) :=
          if skip_transform then Except.ok (s1 ++ [("transform", "skipped")])
          else
            match transformRes with
            | Except.error e => Except.error e
            | Except.ok _ => Except.ok (s1 ++ [("transform", "success")])
        match tOut with
        | Except.error e => mkFail q s1 e
        | Except.ok s2 =>
            let lOut : Except String (List (String × String)) :=
              if skip_load then Except.ok (s2 ++ [("load", "skipped")])
              else
                match loadRes with
                | Except.error e => Except.error e
                | Except.ok _ => Except.ok (s2 ++ [("load", "success")])
            match lOut with
            | Except.error e => mkFail q s2 e
            | Except.ok s3 =>
                let aOut : Except String (List (String × String)) :=
                  if analyze then
                    match analyzeRes with
                    | Except.error e => Except.error e
                    | Except.ok _ => Except.ok (s3 ++ [("analyze", "success")])
                  else Except.ok (s3 ++ [("analyze", "skipped")])
                match aOut with
                | Except.error e => mkFail q s3 e
                | Except.ok s4 => mkSuccess q s4

end ETLPipeline

/-! ## Lemmas about the line machinery (for claim C5) -/

theorem normalizeNewlines_crnl (rest : List Char) :
    normalizeNewlines ('\r' :: '\n' :: rest) = '\n' :: normalizeNewlines rest := rfl

theorem normalizeNewlines_cr {d : Char} (rest : List Char) (h : d ≠ '\n') :
    normalizeNewlines ('\r' :: d :: rest) = '\n' :: normalizeNewlines (d :: rest) := by
  simp [normalizeNewlines, h]

theorem normalizeNewlines_cons_ne {c : Char} (rest : List Char) (hc : c ≠ '\r') :
    normalizeNewlines (c :: rest) = c :: normalizeNewlines rest := by
  cases rest with
  | nil => simp [normalizeNewlines, hc]
  | cons d rest2 => simp [normalizeNewlines, hc]

theorem norm_no_cr (s : List Char) : ∀ c ∈ normalizeNewlines s, c ≠ '\r' := by
  induction s using normalizeNewlines.induct with
  | case1 => simp [normalizeNewlines]
  | case2 rest ih =>
      rw [normalizeNewlines_crnl]
      intro c hc
      rcases List.mem_cons.mp hc with h | h
      · subst h; decide
      · exact ih c h
  | case3 rest h ih =>
      cases rest with
      | nil => intro c hc; simp [normalizeNewlines] at hc; subst hc; decide
      | cons d rest2 =>
          have hd : d ≠ '\n' := fun he => h rest2 (by rw [he])
          rw [normalizeNewlines_cr rest2 hd]
          intro c hc
          rcases List.mem_cons.mp hc with h2 | h2
          · subst h2; decide
          · exact ih c h2
  | case4 c rest h1 h2 ih =>
      rw [normalizeNewlines_cons_ne rest h2]
      intro x hx
      rcases List.mem_cons.mp hx with h3 | h3
      · subst h3; exact h2
      · exact ih x h3

theorem normalizeNewlines_eq_self :
    ∀ l : List Char, (∀ c ∈ l, c ≠ '\r') → normalizeNewlines l = l := by
  intro l
  induction l with
  | nil => intro _; rfl
  | cons c rest ih =>
      intro h
      rw [normalizeNewlines_cons_ne rest (h c (List.mem_cons_self c rest))]
      rw [ih (fun d hd => h d (List.mem_cons_of_mem c hd))]

theorem splitlinesAux_no_nl :
    ∀ (l acc : List Char), (∀ c ∈ l, c ≠ '\n') →
      splitlinesAux l acc =
        if acc.reverse ++ l = [] then [] else [acc.reverse ++ l] := by
  intro l
  induction l with
  | nil =>
      intro acc _
      rcases Decidable.em (acc = []) with h | h <;>
        simp [splitlinesAux, List.isEmpty_iff, h]
  | cons c rest ih =>
      intro acc h
      have hc : c ≠ '\n' := h c (List.mem_cons_self c rest)
      have : splitlinesAux (c :: rest) acc = splitlinesAux rest (c :: acc) := by
        simp [splitlinesAux, hc]
      rw [this, ih (c :: acc) (fun d hd => h d (List.mem_cons_of_mem c hd))]
      simp

theorem splitlinesAux_append_nl :
    ∀ (l : List Char), (∀ c ∈ l, c ≠ '\n') → ∀ (rest acc : List Char),
      splitlinesAux (l ++ '\n' :: rest) acc =
        (acc.reverse ++ l) :: splitlinesAux rest [] := by
  intro l
  induction l with
  | nil =>
      intro _ rest acc
      simp [splitlinesAux]
  | cons c l' ih =>
      intro h rest acc
      have hc : c ≠ '\n' := h c (List.mem_cons_self c l')
      have step : splitlinesAux (c :: (l' ++ '\n' :: rest)) acc
          = splitlinesAux (l' ++ '\n' :: rest) (c :: acc) := by
        simp [splitlinesAux, hc]
      calc splitlinesAux ((c :: l') ++ '\n' :: rest) acc
      _ = splitlinesAux (l' ++ '\n' :: rest) (c :: acc) := step
      _ = ((c :: acc).reverse ++ l') :: splitlinesAux rest [] :=
          ih (fun d hd => h d (List.mem_cons_of_mem c hd)) rest (c :: acc)
      _ = (acc.reverse ++ c :: l') :: splitlinesAux rest [] := by simp

theorem mem_joinNL :
    ∀ (ls : List (List Char)) (c : Char), c ∈ joinNL ls →
      c = '\n' ∨ ∃ l ∈ ls, c ∈ l := by
  intro ls
  induction ls using joinNL.induct with
  | case1 => intro c hc; simp [joinNL] at hc
  | case2 l => intro c hc; right; exact ⟨l, by simp, by simpa [joinNL] using hc⟩
  | case3 l ls h ih =>
      intro c hc
      have : joinNL (l :: ls) = l ++ '\n' :: joinNL ls := by
        cases ls with
        | nil => exact absurd rfl h
        | cons a as => rfl
      rw [this] at hc
      rcases List.mem_append.mp hc with h1 | h1
      · right; exact ⟨l, by simp, h1⟩
      · rcases List.mem_cons.mp h1 with h2 | h2
        · left; exact h2
        · rcases ih c h2 with h3 | ⟨l', hl', hcl'⟩
          · left; exact h3
          · right; exact ⟨l', List.mem_cons_of_mem l hl', hcl'⟩

theorem joinNL_cons_cons (l l' : List Char) (ls : List (List Char)) :
    joinNL (l :: l' :: ls) = l ++ '\n' :: joinNL (l' :: ls) := rfl

theorem splitlinesAux_joinNL :
    ∀ ls : List (List Char), (∀ l ∈ ls, ∀ c ∈ l, c ≠ '\n') →
      splitlinesAux (joinNL ls) [] =
        if ls.getLast? = some [] then ls.dropLast else ls := by
  intro ls
  induction ls with
  | nil => intro _; simp [joinNL, splitlinesAux]
  | cons l ls ih =>
      intro h
      cases ls with
      | nil =>
          have hl : ∀ c ∈ l, c ≠ '\n' := h l (by simp)
          have := splitlinesAux_no_nl l [] hl
          simp only [joinNL] at *
          rw [this]
          rcases Decidable.em (l = []) with he | he <;> simp [he]
      | cons l' ls' =>
          have hl : ∀ c ∈ l, c ≠ '\n' := h l (by simp)
          rw [joinNL_cons_cons, splitlinesAux_append_nl l hl (joinNL (l' :: ls')) []]
          rw [ih (fun m hm => h m (List.mem_cons_of_mem l hm))]
          rcases Decidable.em ((l' :: ls').getLast? = some []) with he | he <;>
            simp [he, List.getLast?_cons_cons]

theorem mem_splitlinesAux_clean :
    ∀ (s acc : List Char), (∀ c ∈ s, c ≠ '\r') →
      (∀ c ∈ acc, c ≠ '\n' ∧ c ≠ '\r') →
      ∀ l ∈ splitlinesAux s acc, ∀ c ∈ l, c ≠ '\n' ∧ c ≠ '\r' := by
  intro s
  induction s with
  | nil =>
      intro acc _ hacc l hl
      simp [splitlinesAux] at hl
      rcases hl with ⟨_, hl⟩
      subst hl
      intro c hc
      exact hacc c (List.mem_reverse.mp hc)
  | cons a s' ih =>
      intro acc hs hacc l hl
      rcases Decidable.em (a = '\n') with ha | ha
      · subst ha
        simp [splitlinesAux] at hl
        rcases hl with hl | hl
        · subst hl
          intro c hc
          exact hacc c (List.mem_reverse.mp hc)
        · exact ih [] (fun c hc => hs c (List.mem_cons_of_mem _ hc)) (by simp) l hl
      · have ha2 : a ≠ '\r' := hs a (List.mem_cons_self a s')
        have : splitlinesAux (a :: s') acc = splitlinesAux s' (a :: acc) := by
          simp [splitlinesAux, ha]
        rw [this] at hl
        refine ih (a :: acc) (fun c hc => hs c (List.mem_cons_of_mem _ hc)) ?_ l hl
        intro c hc
        rcases List.mem_cons.mp hc with h1 | h1
        · subst h1; exact ⟨ha, ha2⟩
        · exact hacc c h1

theorem mem_splitlines_clean (x : List Char) :
    ∀ l ∈ splitlines x, ∀ c ∈ l, c ≠ '\n' ∧ c ≠ '\r' := by
  intro l hl
  exact mem_splitlinesAux_clean (normalizeNewlines x) [] (norm_no_cr x) (by simp) l hl

theorem splitlines_joinNL (ls : List (List Char))
    (h : ∀ l ∈ ls, ∀ c ∈ l, c ≠ '\n' ∧ c ≠ '\r') :
    splitlines (joinNL ls) = if ls.getLast? = some [] then ls.dropLast else ls := by
  unfold splitlines
  rw [normalizeNewlines_eq_self (joinNL ls) ?hcr]
  · exact splitlinesAux_joinNL ls (fun l hl c hc => (h l hl c hc).1)
  case hcr =>
    intro c hc
    rcases mem_joinNL ls c hc with h1 | ⟨l, hl, hcl⟩
    · subst h1; decide
    · exact (h l hl c hcl).2

/-- C5, counterexample.  The claim asserts
`sanitize(sanitize(x)) == sanitize(x)` for **all** code texts.  It fails
at `"\n\n"` (three empty lines, no fence line at all): `splitlines` drops
the trailing empty line produced by a trailing newline, so one
application yields `"\n"` and a second application yields `""`. -/
theorem clean_code_fences_claim_counterexample :
    clean_code_fences (clean_code_fences "\n\n".toList) ≠
      clean_code_fences "\n\n".toList := by decide

/-- C5, amended.  `clean_code_fences` removes exactly the fence-marker
lines: its output's lines are a subsequence of the input's lines (order
and content preserved) and contain no fence line.  It is idempotent
whenever the kept-line list does not end with an empty line; in general
each application may drop one trailing empty line (the counterexample),
because `'\n'.join` renders a trailing empty line as a trailing newline,
which `splitlines` does not turn back into a line. -/
theorem clean_code_fences_spec (x : List Char) :
    List.Sublist (splitlines (clean_code_fences x)) (splitlines x) ∧
    (∀ l ∈ splitlines (clean_code_fences x), isFenceLine l = false) ∧
    (((splitlines x).filter (fun l => !isFenceLine l)).getLast? ≠ some [] →
      clean_code_fences (clean_code_fences x) = clean_code_fences x) := by
  have hclean : ∀ l ∈ (splitlines x).filter (fun l => !isFenceLine l),
      ∀ c ∈ l, c ≠ '\n' ∧ c ≠ '\r' :=
    fun l hl => mem_splitlines_clean x l (List.mem_of_mem_filter hl)
  have hsplit : splitlines (clean_code_fences x) =
      if ((splitlines x).filter (fun l => !isFenceLine l)).getLast? = some [] then
        ((splitlines x).filter (fun l => !isFenceLine l)).dropLast
      else (splitlines x).filter (fun l => !isFenceLine l) :=
    splitlines_joinNL _ hclean
  refine ⟨?_, ?_, ?_⟩
  · rw [hsplit]
    split
    · exact (List.dropLast_sublist _).trans (List.filter_sublist _)
    · exact List.filter_sublist _
  · intro l hl
    rw [hsplit] at hl
    have hmem : l ∈ (splitlines x).filter (fun l => !isFenceLine l) := by
      rcases Decidable.em
          (((splitlines x).filter (fun l => !isFenceLine l)).getLast? = some []) with h | h
      · rw [if_pos h] at hl; exact (List.dropLast_sublist _).subset hl
      · rw [if_neg h] at hl; exact hl
    simpa using (List.mem_filter.mp hmem).2
  · intro h
    have hks : splitlines (clean_code_fences x) =
        (splitlines x).filter (fun l => !isFenceLine l) := by
      rw [hsplit, if_neg h]
    show joinNL ((splitlines (clean_code_fences x)).filter (fun l => !isFenceLine l)) =
      clean_code_fences x
    rw [hks, List.filter_eq_self.mpr (fun a ha => (List.mem_filter.mp ha).2)]
    rfl

/-- C5, witness for the amended theorem at the code text
`"```\nx = 1"`. -/
theorem clean_code_fences_spec_witness :
    (((splitlines "```\nx = 1".toList).filter (fun l => !isFenceLine l)).getLast? ≠
        some [] ∧
      clean_code_fences (clean_code_fences "```\nx = 1".toList) =
        clean_code_fences "```\nx = 1".toList) ∧
    "x = 1".toList ∈ splitlines (clean_code_fences "```\nx = 1".toList) ∧
    isFenceLine "x = 1".toList = false :=
  ⟨⟨by decide, (clean_code_fences_spec "```\nx = 1".toList).2.2 (by decide)⟩,
    by decide,
    (clean_code_fences_spec "```\nx = 1".toList).2.1 "x = 1".toList (by decide)⟩

/-! ## Lemmas about `sanitize_column_name` (for claim C9) -/

theorem pyToLower_not_upper (c : Char) : ¬('A' ≤ pyToLower c ∧ pyToLower c ≤ 'Z') := by
  unfold pyToLower
  by_cases h : 'A' ≤ c ∧ c ≤ 'Z'
  · rw [if_pos h]
    intro hup
    have ha : 65 ≤ c.toNat := h.1
    have hz : c.toNat ≤ 90 := h.2
    have hvalid : Nat.isValidChar (c.toNat + 32) := Or.inl (by omega)
    have htn : (Char.ofNat (c.toNat + 32)).toNat = c.toNat + 32 := by
      unfold Char.ofNat
      rw [dif_pos hvalid]
      rfl
    have hle : (Char.ofNat (c.toNat + 32)).toNat ≤ 90 := hup.2
    omega
  · rw [if_neg h]; exact h

theorem pyToLower_eq_self {c : Char} (h : ¬('A' ≤ c ∧ c ≤ 'Z')) : pyToLower c = c := by
  unfold pyToLower; rw [if_neg h]

theorem collapseRunsAux_cons_pos_true (p : Char → Bool) (r a : Char) (l : List Char)
    (ha : p a = true) :
    collapseRunsAux p r true (a :: l) = collapseRunsAux p r true l := by
  simp [collapseRunsAux, ha]

theorem collapseRunsAux_cons_pos_false (p : Char → Bool) (r a : Char) (l : List Char)
    (ha : p a = true) :
    collapseRunsAux p r false (a :: l) = r :: collapseRunsAux p r true l := by
  simp [collapseRunsAux, ha]

theorem collapseRunsAux_cons_neg (p : Char → Bool) (r a : Char) (l : List Char)
    (ha : p a = false) (b : Bool) :
    collapseRunsAux p r b (a :: l) = a :: collapseRunsAux p r false l := by
  simp [collapseRunsAux, ha]

theorem mem_collapseRunsAux {p : Char → Bool} {r : Char} :
    ∀ (l : List Char) (b : Bool) (c : Char), c ∈ collapseRunsAux p r b l →
      c = r ∨ (c ∈ l ∧ p c = false) := by
  intro l
  induction l with
  | nil => intro b c hc; simp [collapseRunsAux] at hc
  | cons a l' ih =>
      intro b c hc
      by_cases ha : p a = true
      · cases b with
        | true =>
            rw [collapseRunsAux_cons_pos_true p r a l' ha] at hc
            rcases ih true c hc with h1 | ⟨h2, h3⟩
            · exact Or.inl h1
            · exact Or.inr ⟨List.mem_cons_of_mem a h2, h3⟩
        | false =>
            rw [collapseRunsAux_cons_pos_false p r a l' ha] at hc
            rcases List.mem_cons.mp hc with hc | hc
            · exact Or.inl hc
            · rcases ih true c hc with h1 | ⟨h2, h3⟩
              · exact Or.inl h1
              · exact Or.inr ⟨List.mem_cons_of_mem a h2, h3⟩
      · have ha' : p a = false := by revert ha; cases (p a) <;> simp
        rw [collapseRunsAux_cons_neg p r a l' ha' b] at hc
        rcases List.mem_cons.mp hc with hc | hc
        · subst hc; exact Or.inr ⟨List.mem_cons_self c l', ha'⟩
        · rcases ih false c hc with h1 | ⟨h2, h3⟩
          · exact Or.inl h1
          · exact Or.inr ⟨List.mem_cons_of_mem a h2, h3⟩

theorem collapseRunsAux_true_head {p : Char → Bool} {r : Char} :
    ∀ (l : List Char) (x : Char),
      (collapseRunsAux p r true l).head? = some x → p x = false := by
  intro l
  induction l with
  | nil => intro x hx; simp [collapseRunsAux] at hx
  | cons a l' ih =>
      intro x hx
      by_cases ha : p a = true
      · rw [collapseRunsAux_cons_pos_true p r a l' ha] at hx
        exact ih x hx
      · have ha' : p a = false := by revert ha; cases (p a) <;> simp
        rw [collapseRunsAux_cons_neg p r a l' ha' true] at hx
        simp only [List.head?_cons, Option.some.injEq] at hx
        subst hx; exact ha'

theorem chain'_collapse_underscore :
    ∀ (l : List Char) (b : Bool),
      List.Chain' noDD (collapseRunsAux (fun c => c == '_') '_' b l) := by
  intro l
  induction l with
  | nil => intro b; simp [collapseRunsAux]
  | cons a l' ih =>
      intro b
      by_cases ha : (a == '_') = true
      · cases b with
        | true => rw [collapseRunsAux_cons_pos_true (fun c => c == '_') '_' a l' ha]; exact ih true
        | false =>
            rw [collapseRunsAux_cons_pos_false (fun c => c == '_') '_' a l' ha]
            rw [List.chain'_cons']
            refine ⟨?_, ih true⟩
            intro y hy
            have hpy := collapseRunsAux_true_head l' y hy
            intro hdd
            rw [hdd.2] at hpy
            simp at hpy
      · have ha' : (a == '_') = false := by revert ha; cases (a == '_') <;> simp
        rw [collapseRunsAux_cons_neg (fun c => c == '_') '_' a l' ha' b]
        rw [List.chain'_cons']
        refine ⟨?_, ih false⟩
        intro y _ hdd
        rw [hdd.1] at ha'
        simp at ha'

theorem collapseRunsAux_id {p : Char → Bool} {r : Char} :
    ∀ (l : List Char) (b : Bool), (∀ c ∈ l, p c = false) →
      collapseRunsAux p r b l = l := by
  intro l
  induction l with
  | nil => intro b _; rfl
  | cons a l' ih =>
      intro b h
      have ha : p a = false := h a (List.mem_cons_self a l')
      rw [collapseRunsAux_cons_neg p r a l' ha b,
        ih false (fun c hc => h c (List.mem_cons_of_mem a hc))]

theorem collapse_underscore_id :
    ∀ (l : List Char) (b : Bool), List.Chain' noDD l →
      (b = true → l.head? ≠ some '_') →
      collapseRunsAux (fun c => c == '_') '_' b l = l := by
  intro l
  induction l with
  | nil => intro b _ _; rfl
  | cons a l' ih =>
      intro b hch hb
      by_cases ha : (a == '_') = true
      · have ha' : a = '_' := by simpa using ha
        cases b with
        | true =>
            exact absurd (show (a :: l').head? = some '_' by rw [ha']; rfl) (hb rfl)
        | false =>
            rw [collapseRunsAux_cons_pos_false (fun c => c == '_') '_' a l' ha]
            have hh : l'.head? ≠ some '_' := by
              intro hhead
              have hcons := (List.chain'_cons'.mp hch).1
              exact hcons '_' (by rw [hhead]; rfl) ⟨ha', rfl⟩
            rw [ih true hch.tail (fun _ => hh), ha']
      · have ha' : (a == '_') = false := by revert ha; cases (a == '_') <;> simp
        rw [collapseRunsAux_cons_neg (fun c => c == '_') '_' a l' ha' b]
        rw [ih false hch.tail (fun h => absurd h (by decide))]

theorem head_dropWhile_not (p : Char → Bool) :
    ∀ (l : List Char) (x : Char), ((l.dropWhile p).head? = some x) → p x = false := by
  intro l
  induction l with
  | nil => intro x hx; simp at hx
  | cons a l' ih =>
      intro x hx
      by_cases ha : p a = true
      · rw [List.dropWhile_cons, if_pos ha] at hx; exact ih x hx
      · have ha' : p a = false := by revert ha; cases (p a) <;> simp
        rw [List.dropWhile_cons, if_neg (by simp [ha'])] at hx
        simp only [List.head?_cons, Option.some.injEq] at hx
        subst hx; exact ha'

theorem getLast?_dropWhile (p : Char → Bool) :
    ∀ l : List Char, l.dropWhile p = [] ∨
      (l.dropWhile p).getLast? = l.getLast? := by
  intro l
  induction l with
  | nil => left; rfl
  | cons a l' ih =>
      by_cases ha : p a = true
      · rw [List.dropWhile_cons, if_pos ha]
        rcases Decidable.em (l'.dropWhile p = []) with he | he
        · left; exact he
        · right
          rcases ih with h | h
          · contradiction
          · rw [h]
            cases l' with
            | nil => simp [List.dropWhile] at he
            | cons b l'' => rw [List.getLast?_cons_cons]
      · rw [List.dropWhile_cons, if_neg ha]
        right; rfl

theorem stripUnderscores_head? (l : List Char) :
    (stripUnderscores l).head? ≠ some '_' := by
  unfold stripUnderscores
  intro h
  rw [List.head?_reverse] at h
  rcases getLast?_dropWhile (· == '_') (l.dropWhile (· == '_')).reverse with he | he
  · rw [he] at h; simp at h
  · rw [he, List.getLast?_reverse] at h
    have := head_dropWhile_not (· == '_') l '_' h
    simp at this

theorem stripUnderscores_getLast? (l : List Char) :
    (stripUnderscores l).getLast? ≠ some '_' := by
  unfold stripUnderscores
  intro h
  rw [List.getLast?_reverse] at h
  have := head_dropWhile_not (· == '_') (l.dropWhile (· == '_')).reverse '_' h
  simp at this

theorem mem_stripUnderscores {c : Char} {l : List Char}
    (h : c ∈ stripUnderscores l) : c ∈ l := by
  unfold stripUnderscores at h
  have h1 := List.mem_reverse.mp h
  have h2 := (List.dropWhile_suffix _).subset h1
  have h3 := List.mem_reverse.mp h2
  exact (List.dropWhile_suffix _).subset h3

theorem chain'_stripUnderscores {l : List Char} (h : List.Chain' noDD l) :
    List.Chain' noDD (stripUnderscores l) := by
  unfold stripUnderscores
  have symm : ∀ {m : List Char}, List.Chain' noDD m → List.Chain' noDD m.reverse := by
    intro m hm
    rw [List.chain'_reverse]
    exact List.Chain'.imp (fun a b hab hx => hab ⟨hx.2, hx.1⟩) hm
  exact symm (((symm (h.suffix (List.dropWhile_suffix _)))).suffix (List.dropWhile_suffix _))

theorem word_not_space {c : Char} (h : isWordChar c = true) : pyIsSpace c = false := by
  by_cases hs : pyIsSpace c = true
  · simp only [pyIsSpace, Bool.or_eq_true, beq_iff_eq] at hs
    rcases hs with ((((h1 | h1) | h1) | h1) | h1) | h1 <;>
      (subst h1; exact absurd h (by decide))
  · revert hs; cases (pyIsSpace c) <;> simp

theorem replaceNonWord_mem (d : Char) :
    (isWordChar (replaceNonWord d) || pyIsSpace (replaceNonWord d)) = true := by
  unfold replaceNonWord
  by_cases h : (isWordChar d || pyIsSpace d) = true
  · rw [if_pos h]; exact h
  · rw [if_neg h]; decide

theorem replaceNonWord_lower {d : Char} (hd : ¬('A' ≤ d ∧ d ≤ 'Z')) :
    ¬('A' ≤ replaceNonWord d ∧ replaceNonWord d ≤ 'Z') := by
  unfold replaceNonWord
  split
  · exact hd
  · decide

theorem sanitize_s4_chars (s : List Char) :
    ∀ c ∈ collapseRuns (fun c => c == '_') '_'
        (collapseRuns pyIsSpace '_' ((s.map pyToLower).map replaceNonWord)),
      isWordChar c = true ∧ ¬('A' ≤ c ∧ c ≤ 'Z') := by
  intro c hc
  simp only [collapseRuns] at hc
  rcases mem_collapseRunsAux _ false c hc with rfl | ⟨hc3, _⟩
  · exact ⟨by decide, by decide⟩
  · rcases mem_collapseRunsAux _ false c hc3 with rfl | ⟨hc2, hsp⟩
    · exact ⟨by decide, by decide⟩
    · rcases List.mem_map.mp hc2 with ⟨d, hd, rfl⟩
      rcases List.mem_map.mp hd with ⟨e, _, rfl⟩
      constructor
      · have hm := replaceNonWord_mem (pyToLower e)
        simp only [Bool.or_eq_true] at hm
        rcases hm with hw | hspace
        · exact hw
        · rw [hspace] at hsp; simp at hsp
      · exact replaceNonWord_lower (pyToLower_not_upper e)

theorem dropWhile_underscore_id {l : List Char} (h : l.head? ≠ some '_') :
    l.dropWhile (· == '_') = l := by
  cases l with
  | nil => rfl
  | cons a l' =>
      have ha : a ≠ '_' := by
        intro he; exact h (by rw [he]; rfl)
      rw [List.dropWhile_cons, if_neg (by simp [ha])]

theorem map_eq_self_of_mem {f : Char → Char} :
    ∀ l : List Char, (∀ c ∈ l, f c = c) → l.map f = l := by
  intro l
  induction l with
  | nil => intro _; rfl
  | cons a l' ih =>
      intro h
      simp [h a (List.mem_cons_self a l'),
        ih (fun c hc => h c (List.mem_cons_of_mem a hc))]

/-- C9.  `sanitize_column_name` returns a string whose characters are all
word characters (every non-word character was replaced or collapsed into
an underscore) containing no uppercase letter (`pyToLower` fixes every
output character), with no two consecutive underscores (`noDD` chain), no
leading or trailing underscore, and the function is idempotent. -/
theorem sanitize_column_name_spec (s : List Char) :
    (∀ c ∈ sanitize_column_name s, isWordChar c = true ∧ pyToLower c = c) ∧
    List.Chain' noDD (sanitize_column_name s) ∧
    (sanitize_column_name s).head? ≠ some '_' ∧
    (sanitize_column_name s).getLast? ≠ some '_' ∧
    sanitize_column_name (sanitize_column_name s) = sanitize_column_name s := by
  have hd : sanitize_column_name s =
      stripUnderscores (collapseRuns (fun c => c == '_') '_'
        (collapseRuns pyIsSpace '_' ((s.map pyToLower).map replaceNonWord))) := rfl
  have hchars : ∀ c ∈ sanitize_column_name s,
      isWordChar c = true ∧ ¬('A' ≤ c ∧ c ≤ 'Z') := by
    intro c hc
    rw [hd] at hc
    exact sanitize_s4_chars s c (mem_stripUnderscores hc)
  have hchain : List.Chain' noDD (sanitize_column_name s) := by
    rw [hd]
    refine chain'_stripUnderscores ?_
    simp only [collapseRuns]
    exact chain'_collapse_underscore _ false
  have hhead : (sanitize_column_name s).head? ≠ some '_' := by
    rw [hd]; exact stripUnderscores_head? _
  have hlast : (sanitize_column_name s).getLast? ≠ some '_' := by
    rw [hd]; exact stripUnderscores_getLast? _
  refine ⟨fun c hc => ⟨(hchars c hc).1, pyToLower_eq_self (hchars c hc).2⟩,
    hchain, hhead, hlast, ?_⟩
  have e1 : (sanitize_column_name s).map pyToLower = sanitize_column_name s :=
    map_eq_self_of_mem _ (fun c hc => pyToLower_eq_self (hchars c hc).2)
  have e2 : (sanitize_column_name s).map replaceNonWord = sanitize_column_name s :=
    map_eq_self_of_mem _ (fun c hc => by
      unfold replaceNonWord
      rw [if_pos (show (isWordChar c || pyIsSpace c) = true by
        rw [(hchars c hc).1]; simp)])
  have e3 : collapseRuns pyIsSpace '_' (sanitize_column_name s) =
      sanitize_column_name s := by
    simp only [collapseRuns]
    exact collapseRunsAux_id _ false (fun c hc => word_not_space (hchars c hc).1)
  have e4 : collapseRuns (fun c => c == '_') '_' (sanitize_column_name s) =
      sanitize_column_name s := by
    simp only [collapseRuns]
    exact collapse_underscore_id _ false hchain (fun h => absurd h (by decide))
  have e5 : stripUnderscores (sanitize_column_name s) = sanitize_column_name s := by
    unfold stripUnderscores
    rw [dropWhile_underscore_id hhead]
    rw [dropWhile_underscore_id (by rw [List.head?_reverse]; exact hlast)]
    exact List.reverse_reverse _
  calc sanitize_column_name (sanitize_column_name s)
      = stripUnderscores (collapseRuns (fun c => c == '_') '_'
          (collapseRuns pyIsSpace '_'
            (((sanitize_column_name s).map pyToLower).map replaceNonWord))) := rfl
    _ = sanitize_column_name s := by rw [e1, e2, e3, e4, e5]

/-- C9, witness at the column name `"My Col!!"` (sanitized to
`"my_col"`). -/
theorem sanitize_column_name_spec_witness :
    sanitize_column_name "My Col!!".toList = "my_col".toList ∧
    (isWordChar 'm' = true ∧ pyToLower 'm' = 'm') ∧
    List.Chain' noDD (sanitize_column_name "My Col!!".toList) ∧
    (sanitize_column_name "My Col!!".toList).head? ≠ some '_' ∧
    (sanitize_column_name "My Col!!".toList).getLast? ≠ some '_' ∧
    sanitize_column_name (sanitize_column_name "My Col!!".toList) =
      sanitize_column_name "My Col!!".toList :=
  ⟨by decide,
   (sanitize_column_name_spec "My Col!!".toList).1 'm' (by decide),
   (sanitize_column_name_spec "My Col!!".toList).2.1,
   (sanitize_column_name_spec "My Col!!".toList).2.2.1,
   (sanitize_column_name_spec "My Col!!".toList).2.2.2.1,
   (sanitize_column_name_spec "My Col!!".toList).2.2.2.2⟩

/-! ## Claim C4: binding enforcement -/

theorem findSome?_eq_some_split {α β : Type} (f : α → Option β) :
    ∀ (l : List α) (b : β), l.findSome? f = some b →
      ∃ l1 a l2, l = l1 ++ a :: l2 ∧ f a = some b ∧ ∀ x ∈ l1, f x = none := by
  intro l
  induction l with
  | nil => intro b h; simp [List.findSome?] at h
  | cons a l' ih =>
      intro b h
      rw [List.findSome?_cons] at h
      split at h
      next c heq =>
        refine ⟨[], a, l', by simp, ?_, by simp⟩
        rw [heq]; exact h
      next heq =>
        rcases ih b h with ⟨l1, x, l2, he, hf, hn⟩
        refine ⟨a :: l1, x, l2, by rw [he]; rfl, hf, ?_⟩
        intro y hy
        rcases List.mem_cons.mp hy with hy1 | hy2
        · subst hy1; exact heq
        · exact hn y hy2

theorem lineAssignTarget_eq_some {l0 v : List Char}
    (h : lineAssignTarget l0 = some v) :
    pyIsIdentifier v = true ∧ '=' ∈ pyStrip l0 ∧ (pyStrip l0).head? ≠ some '#' ∧
    v = pyStrip ((pyStrip l0).takeWhile (fun c => c ≠ '=')) := by
  unfold lineAssignTarget at h
  by_cases h1 : '=' ∈ pyStrip l0 ∧ (pyStrip l0).head? ≠ some '#'
  · rw [if_pos h1] at h
    by_cases h2 :
        pyIsIdentifier (pyStrip ((pyStrip l0).takeWhile (fun c => c ≠ '='))) = true
    · rw [if_pos h2] at h
      have hv := Option.some.inj h
      exact ⟨hv ▸ h2, h1.1, h1.2, hv.symm⟩
    · rw [if_neg h2] at h
      exact absurd h (by simp)
  · rw [if_neg h1] at h
    exact absurd h (by simp)

/-- C4, counterexample.  Two deviations from the claim: (1) the trigger
is the **substring** test `'result_df' not in code`, not the absence of a
`result_df` binding — `"print(result_df)\nx = 1"` has no `result_df`
assignment (no line's assignment target is `result_df`) and has the
assignment line `x = 1`, so the claim demands an appended binding, but
the code leaves the text unchanged; (2) the scan does not require a line
of the form `identifier = expression` — in `"a = 1\nx == 2"` the last
such line is `a = 1`, but the scan accepts the comparison `x == 2`
(text before the first `'='` strips to the identifier `x`) and appends
`result_df = x` instead of `result_df = a`. -/
theorem enforce_binding_claim_counterexample :
    (enforce_binding "print(result_df)\nx = 1".toList =
        "print(result_df)\nx = 1".toList ∧
      ("print(result_df)\nx = 1".toList.splitOn '\n').filter
        (fun l => pyStrip ((pyStrip l).takeWhile (fun c => c ≠ '=')) ==
          "result_df".toList) = [] ∧
      findAssignVar ("print(result_df)\nx = 1".toList.splitOn '\n') =
        some "x".toList) ∧
    (enforce_binding "a = 1\nx == 2".toList =
        "a = 1\nx == 2".toList ++ "\n\n# Assign result\nresult_df = x\n".toList ∧
      lineAssignTarget "a = 1".toList = some "a".toList ∧
      findAssignVar ("a = 1\nx == 2".toList.splitOn '\n') = some "x".toList) := by
  refine ⟨⟨by decide, by decide, by decide⟩, ⟨by decide, by decide, by decide⟩⟩

/-- C4, amended.  When the substring `result_df` occurs anywhere in the
code (even in a comment or inside a longer name), the step leaves the
code unchanged.  Otherwise it scans the lines in reverse for the first
line whose stripped text contains `'='`, does not start with `'#'`, and
whose text before the first `'='` strips to a valid identifier (this can
pick a comparison such as `x == 2`); if one is found it appends exactly
one assignment binding `result_df` to that identifier (the last such line
of the text), else the code is unchanged. -/
theorem enforce_binding_spec (code : List Char) :
    (("result_df".toList <:+: code) → enforce_binding code = code) ∧
    (¬("result_df".toList <:+: code) →
      (findAssignVar (code.splitOn '\n') = none → enforce_binding code = code) ∧
      (∀ v, findAssignVar (code.splitOn '\n') = some v →
        enforce_binding code =
          code ++ "\n\n# Assign result\nresult_df = ".toList ++ v ++ ['\n'] ∧
        pyIsIdentifier v = true ∧
        ∃ pre l post, code.splitOn '\n' = pre ++ l :: post ∧
          lineAssignTarget l = some v ∧
          ∀ l' ∈ post, lineAssignTarget l' = none)) := by
  constructor
  · intro h
    unfold enforce_binding
    rw [if_pos h]
  · intro h
    constructor
    · intro hn
      unfold enforce_binding
      rw [if_neg h, hn]
    · intro v hv
      rcases findSome?_eq_some_split lineAssignTarget _ v hv with ⟨l1, a, l2, he, hf, hn⟩
      refine ⟨?_, (lineAssignTarget_eq_some hf).1, ?_⟩
      · unfold enforce_binding
        rw [if_neg h, hv]
      · refine ⟨l2.reverse, a, l1.reverse, ?_, hf, ?_⟩
        · have : (code.splitOn '\n').reverse.reverse = (l1 ++ a :: l2).reverse := by
            rw [he]
          rw [List.reverse_reverse] at this
          rw [this]
          simp
        · intro l' hl'
          exact hn l' (List.mem_reverse.mp hl')

/-- C4, witness for the amended theorem at the code text
`"y = 2\nz = 3"` (no `result_df` substring; the reverse scan picks `z`). -/
theorem enforce_binding_spec_witness :
    ¬("result_df".toList <:+: "y = 2\nz = 3".toList) ∧
    findAssignVar ("y = 2\nz = 3".toList.splitOn '\n') = some "z".toList ∧
    enforce_binding "y = 2\nz = 3".toList =
      "y = 2\nz = 3".toList ++ "\n\n# Assign result\nresult_df = ".toList ++
        "z".toList ++ ['\n'] :=
  ⟨by decide, by decide,
    (((enforce_binding_spec "y = 2\nz = 3".toList).2 (by decide)).2
      "z".toList (by decide)).1⟩

/-! ## Claim C1: result-recovery precedence -/

theorem mem_of_getLast?_eq_some {α : Type} :
    ∀ (l : List α) (a : α), l.getLast? = some a → a ∈ l := by
  intro l
  induction l with
  | nil => intro a h; simp at h
  | cons x l' ih =>
      intro a h
      cases l' with
      | nil => simp at h; subst h; exact List.mem_singleton_self x
      | cons y l'' =>
          rw [List.getLast?_cons_cons] at h
          exact List.mem_cons_of_mem x (ih a h)

/-- C1, counterexample.  The claim admits an explicitly bound `result_df`
only when it is table-shaped, otherwise the candidate scan should run
(here selecting the DataFrame bound to `t`).  The code only checks
`result_df is None`: with `result_df` bound to a non-DataFrame value
(say an `int`), the recovery returns that value as the Success result
even though it is not table-shaped. -/
theorem recover_result_claim_counterexample :
    recover_result
        [("pd", PyVal.other "module"), ("dataframes", PyVal.other "dict"),
         ("np", PyVal.other "module"), ("result_df", PyVal.other "int"),
         ("t", PyVal.df ⟨[], 1⟩)] =
      Except.ok (PyVal.other "int") ∧
    (PyVal.other "int").isDf = false ∧
    candidates
        [("pd", PyVal.other "module"), ("dataframes", PyVal.other "dict"),
         ("np", PyVal.other "module"), ("result_df", PyVal.other "int"),
         ("t", PyVal.df ⟨[], 1⟩)] =
      [("t", PyVal.df ⟨[], 1⟩)] := by
  refine ⟨by decide, by decide, by decide⟩

/-- C1, amended.  Precedence of the result recovery: (1) an explicitly
bound `result_df` is used whenever it is any value other than `None`,
**regardless of its kind**; (2) only when `result_df` is `None` (or
unbound) is the namespace scanned, and the last-inserted candidate —
necessarily table-shaped — is used; (3) with no candidate the recovery
fails with the `NoResultProducedError` message.  The candidate scan keeps
exactly the table-shaped bindings whose name is not `pd`, not
`dataframes` (the input mapping), and does not start with `_`. -/
theorem recover_result_precedence (g : List (String × PyVal)) :
    (∀ v, g.lookup "result_df" = some v → v ≠ PyVal.pyNone →
      recover_result g = Except.ok v) ∧
    ((g.lookup "result_df").getD PyVal.pyNone = PyVal.pyNone →
      (∀ p, (candidates g).getLast? = some p →
        recover_result g = Except.ok p.2 ∧ p.2.isDf = true) ∧
      ((candidates g).getLast? = none →
        recover_result g = Except.error noResultMsg)) ∧
    (∀ nm v, (nm, v) ∈ candidates g ↔
      ((nm, v) ∈ g ∧ v.isDf = true ∧ nm ≠ "pd" ∧ nm ≠ "dataframes" ∧
        startsWithUnderscore nm = false)) := by
  refine ⟨?_, ?_, ?_⟩
  · intro v hv hne
    unfold recover_result
    rw [hv]
    simp only [Option.getD_some]
    rw [if_neg hne, if_neg hne]
  · intro hr0
    constructor
    · intro p hp
      have hmem : p ∈ candidates g := mem_of_getLast?_eq_some _ p hp
      have hdf : p.2.isDf = true := by
        have := (List.mem_filter.mp hmem).2
        simp only [Bool.and_eq_true] at this
        exact this.1.1.1
      have hne : p.2 ≠ PyVal.pyNone := by
        intro he
        rw [he] at hdf
        simp [PyVal.isDf] at hdf
      refine ⟨?_, hdf⟩
      simp [recover_result, hr0, hp, hne]
    · intro hnone
      simp [recover_result, hr0, hnone]
  · intro nm v
    constructor
    · intro hm
      have hg := (List.mem_filter.mp hm).1
      have hc := (List.mem_filter.mp hm).2
      simp only [Bool.and_eq_true, bne_iff_ne, ne_eq, Bool.not_eq_true'] at hc
      exact ⟨hg, hc.1.1.1, hc.1.1.2, hc.1.2, hc.2⟩
    · intro ⟨hg, hdf, hpd, hdfs, hus⟩
      refine List.mem_filter.mpr ⟨hg, ?_⟩
      simp only [Bool.and_eq_true, bne_iff_ne, ne_eq, Bool.not_eq_true']
      exact ⟨⟨⟨hdf, hpd⟩, hdfs⟩, hus⟩

/-- C1, witness for the amended theorem: the three precedence branches
and the candidate characterization at concrete namespaces. -/
theorem recover_result_precedence_witness :
    recover_result [("result_df", PyVal.other "int")] =
      Except.ok (PyVal.other "int") ∧
    (recover_result [("result_df", PyVal.pyNone), ("t", PyVal.df ⟨[], 2⟩)] =
      Except.ok (PyVal.df ⟨[], 2⟩) ∧ (PyVal.df ⟨[], 2⟩ : PyVal).isDf = true) ∧
    recover_result [("x", PyVal.other "int")] = Except.error noResultMsg ∧
    ("t", PyVal.df ⟨[], 2⟩) ∈
      candidates [("result_df", PyVal.pyNone), ("t", PyVal.df ⟨[], 2⟩)] :=
  ⟨(recover_result_precedence [("result_df", PyVal.other "int")]).1
      (PyVal.other "int") (by decide) (by decide),
   ((recover_result_precedence
        [("result_df", PyVal.pyNone), ("t", PyVal.df ⟨[], 2⟩)]).2.1
      (by decide)).1 ("t", PyVal.df ⟨[], 2⟩) (by decide),
   ((recover_result_precedence [("x", PyVal.other "int")]).2.1
      (by decide)).2 (by decide),
   ((recover_result_precedence
        [("result_df", PyVal.pyNone), ("t", PyVal.df ⟨[], 2⟩)]).2.2
      "t" (PyVal.df ⟨[], 2⟩)).mpr (by decide)⟩

/-! ## Claim C3: exception handling of the sandbox -/

/-- C3, counterexample.  The claim says an exception raised while running
the generated code is converted into a Failure value and never propagates
raw.  In the code the `except` block logs and then re-raises (`raise`),
so the exception reaches the caller unchanged: here the execution outcome
is a raised `KeyError` and `execute_transformation` surfaces exactly that
exception (modelled as `Except.error`). -/
theorem execute_transformation_claim_counterexample :
    execute_transformation "df2 = dataframes[0]"
        (Except.error "KeyError: 0") =
      Except.error "KeyError: 0" := rfl

/-- C3, amended.  Exceptions raised during `exec` are caught, logged
together with the code, and **re-raised unchanged** to the caller; the
recovery `ValueError` propagates the same way.  It is the Retry
Controller (`iterative_transform`) that catches the exception and acts on
it: a failure on attempt 0 followed by a success on attempt 1 with the
augmented intent yields the Success value. -/
theorem execute_transformation_reraise :
    (∀ (code e : String),
      execute_transformation code (Except.error e) = Except.error e) ∧
    (∀ (code : String) (g : List (String × PyVal)),
      execute_transformation code (Except.ok g) = recover_result g) ∧
    (∀ (step : Nat → String → Except String Df) (q : String) (d : Df) (e : String),
      step 0 q = Except.error e →
      step 1 (augmentQuery q e) = Except.ok d →
      iterative_transform step q 2 = (Except.ok d, [q, augmentQuery q e])) := by
  refine ⟨fun _ _ => rfl, fun _ _ => rfl, ?_⟩
  intro step q d e h0 h1
  show iterAux step 2 2 q none [] = _
  have s1 : iterAux step 2 2 q none [] =
      (match step 0 q with
        | Except.ok d' => (Except.ok d', [q])
        | Except.error e' =>
            iterAux step 2 1 (augmentQuery q e') (some e') [q]) := rfl
  rw [s1, h0]
  show iterAux step 2 1 (augmentQuery q e) (some e) [q] = _
  have s2 : iterAux step 2 1 (augmentQuery q e) (some e) [q] =
      (match step 1 (augmentQuery q e) with
        | Except.ok d' => (Except.ok d', [q, augmentQuery q e])
        | Except.error e' =>
            iterAux step 2 0 (augmentQuery q e) (some e')
              [q, augmentQuery q e]) := rfl
  rw [s2, h1]

/-- C3, witness at a concrete raised exception and a concrete
fail-then-succeed transform behaviour. -/
theorem execute_transformation_reraise_witness :
    execute_transformation "x" (Except.error "boom") = Except.error "boom" ∧
    iterative_transform
        (fun k _ => if k = 0 then Except.error "E" else Except.ok ⟨[], 0⟩)
        "q" 2 =
      (Except.ok (⟨[], 0⟩ : Df), ["q", augmentQuery "q" "E"]) :=
  ⟨execute_transformation_reraise.1 "x" "boom",
   execute_transformation_reraise.2.2
      (fun k _ => if k = 0 then Except.error "E" else Except.ok ⟨[], 0⟩)
      "q" ⟨[], 0⟩ "E" (by decide) (by decide)⟩

/-! ## Claim C2: retry cycles and accumulated intent -/

theorem iterAux_persistent_fail (step : Nat → String → Except String Df)
    (q0 : String) (N : Nat) (hfail : ∀ k q, ∃ e, step k q = Except.error e) :
    ∀ rem, rem ≤ N → ∀ (le : Option String) (log : List String),
      (∃ m, (iterAux step N rem (attemptQuery step q0 (N - rem)) le log).1 =
        Except.error m) ∧
      (iterAux step N rem (attemptQuery step q0 (N - rem)) le log).2 =
        log ++ (List.range rem).map (fun j => attemptQuery step q0 (N - rem + j)) := by
  intro rem
  induction rem with
  | zero =>
      intro _ le log
      exact ⟨⟨terminalMsg N le, rfl⟩, by simp [iterAux]⟩
  | succ r ih =>
      intro hrem le log
      obtain ⟨e, he⟩ := hfail (N - (r + 1)) (attemptQuery step q0 (N - (r + 1)))
      have hstep : iterAux step N (r + 1) (attemptQuery step q0 (N - (r + 1))) le log =
          iterAux step N r
            (if r = 0 then attemptQuery step q0 (N - (r + 1))
             else augmentQuery (attemptQuery step q0 (N - (r + 1))) e)
            (some e) (log ++ [attemptQuery step q0 (N - (r + 1))]) := by
        show (match step (N - (r + 1)) (attemptQuery step q0 (N - (r + 1))) with
          | Except.ok d => (Except.ok d, log ++ [attemptQuery step q0 (N - (r + 1))])
          | Except.error e' =>
              iterAux step N r
                (if r = 0 then attemptQuery step q0 (N - (r + 1))
                 else augmentQuery (attemptQuery step q0 (N - (r + 1))) e')
                (some e') (log ++ [attemptQuery step q0 (N - (r + 1))])) = _
        rw [he]
      cases r with
      | zero =>
          rw [hstep]
          refine ⟨⟨terminalMsg N (some e), rfl⟩, ?_⟩
          show log ++ [attemptQuery step q0 (N - 1)] = _
          rw [show List.range 1 = [0] from by decide]
          simp
      | succ r' =>
          have hq' : (if r' + 1 = 0 then attemptQuery step q0 (N - (r' + 1 + 1))
              else augmentQuery (attemptQuery step q0 (N - (r' + 1 + 1))) e) =
              attemptQuery step q0 (N - (r' + 1)) := by
            rw [if_neg (Nat.succ_ne_zero r')]
            have harith : N - (r' + 1) = (N - (r' + 2)) + 1 := by omega
            rw [harith]
            have hunfold : attemptQuery step q0 ((N - (r' + 2)) + 1) =
                (match step (N - (r' + 2))
                    (attemptQuery step q0 (N - (r' + 2))) with
                  | Except.error e' =>
                      augmentQuery (attemptQuery step q0 (N - (r' + 2))) e'
                  | Except.ok _ => attemptQuery step q0 (N - (r' + 2))) := rfl
            rw [hunfold, show N - (r' + 1 + 1) = N - (r' + 2) from rfl] at *
            rw [he]
          rw [hstep, hq']
          have hkey := ih (by omega) (some e) (log ++ [attemptQuery step q0 (N - (r' + 2))])
          refine ⟨hkey.1, ?_⟩
          rw [hkey.2, List.append_assoc]
          congr 1
          conv_rhs => rw [List.range_succ_eq_map]
          rw [List.map_cons, List.map_map, List.singleton_append]
          congr 1
          refine List.map_congr_left ?_
          intro j _
          exact congrArg (attemptQuery step q0)
            (show N - (r' + 1) + j = N - (r' + 1 + 1) + Nat.succ j from by omega)

/-- C2.  For `max_iterations = N` with a transform step that fails on
every attempt: (1) exactly `N` transform cycles run (the log of intents
has length `N`); (2) the loop then surfaces a terminal error; (3) the
intent used on attempt `i` is `attemptQuery i`; and (4) for every `i`
there is an error `e_i` of attempt `i` with
`attemptQuery (i+1) = augmentQuery (attemptQuery i) e_i` — so the
augmented intent accumulates attempt over attempt and is never reset, and
unrolling (4) shows the `N`-th attempt's intent is the original query
followed by the error messages of all `N−1` prior attempts, appended in
order. -/
theorem iterative_transform_retry_cycles
    (step : Nat → String → Except String Df) (q0 : String) (N : Nat)
    (hfail : ∀ k q, ∃ e, step k q = Except.error e) :
    (iterative_transform step q0 N).2.length = N ∧
    (∃ m, (iterative_transform step q0 N).1 = Except.error m) ∧
    (∀ i, i < N →
      (iterative_transform step q0 N).2.getD i "" = attemptQuery step q0 i) ∧
    (∀ i, ∃ e, step i (attemptQuery step q0 i) = Except.error e ∧
      attemptQuery step q0 (i + 1) =
        augmentQuery (attemptQuery step q0 i) e) := by
  have key := iterAux_persistent_fail step q0 N hfail N (le_refl N) none []
  rw [show N - N = 0 from by omega] at key
  rw [show attemptQuery step q0 0 = q0 from rfl] at key
  have hlog : (iterative_transform step q0 N).2 =
      (List.range N).map (attemptQuery step q0) := by
    show (iterAux step N N q0 none []).2 = _
    rw [key.2]
    simp
  refine ⟨?_, key.1, ?_, ?_⟩
  · rw [hlog]; simp
  · intro i hi
    rw [hlog]
    simp [List.getD_eq_getElem?_getD, List.getElem?_map, List.getElem?_range, hi]
  · intro i
    obtain ⟨e, he⟩ := hfail i (attemptQuery step q0 i)
    refine ⟨e, he, ?_⟩
    have hunfold : attemptQuery step q0 (i + 1) =
        (match step i (attemptQuery step q0 i) with
          | Except.error e' => augmentQuery (attemptQuery step q0 i) e'
          | Except.ok _ => attemptQuery step q0 i) := rfl
    rw [hunfold, he]

/-- C2, witness: a stub that fails on every attempt with error `"E<k>"`,
`N = 3`, original intent `"q"`. -/
theorem iterative_transform_retry_cycles_witness :
    (iterative_transform (fun k _ => Except.error ("E" ++ toString k)) "q" 3).2.length
      = 3 ∧
    (∃ m, (iterative_transform (fun k _ => Except.error ("E" ++ toString k)) "q" 3).1
      = Except.error m) ∧
    (iterative_transform (fun k _ => Except.error ("E" ++ toString k)) "q" 3).2.getD
        2 "" =
      attemptQuery (fun k _ => Except.error ("E" ++ toString k)) "q" 2 ∧
    attemptQuery (fun k _ => Except.error ("E" ++ toString k)) "q" 2 =
      augmentQuery (augmentQuery "q" "E0") "E1" :=
  ⟨(iterative_transform_retry_cycles _ "q" 3
      (fun k q => ⟨"E" ++ toString k, rfl⟩)).1,
   (iterative_transform_retry_cycles _ "q" 3
      (fun k q => ⟨"E" ++ toString k, rfl⟩)).2.1,
   (iterative_transform_retry_cycles _ "q" 3
      (fun k q => ⟨"E" ++ toString k, rfl⟩)).2.2.1 2 (by omega),
   by decide⟩

/-! ## Claim C8: defensive destination parsing -/

/-- C8.  When the completion reply is malformed — the call raised, the
reply contains no brace span, or no extracted span parses as JSON
(`parse` always fails) — `ai_determine_destination` returns a total,
non-raising default: destination `duckdb` with a generated, nonempty
table name. -/
theorem ai_determine_destination_default
    (parse : String → Option (List (String × String)))
    (reply : Except String String)
    (hparse : ∀ s, parse s = none) :
    dget (ai_determine_destination parse reply) "destination" = some "duckdb" ∧
    ∃ t, dget (ai_determine_destination parse reply) "table_name" = some t ∧
      t ≠ "" := by
  cases reply with
  | error e => exact ⟨rfl, "result", rfl, by decide⟩
  | ok text =>
      simp only [ai_determine_destination]
      rcases hb : extractBraceSpan text.toList with _ | span
      · exact ⟨rfl, "ai_result", rfl, by decide⟩
      · simp only [hparse]
        exact ⟨rfl, "result", rfl, by decide⟩

/-- C8, witness: a parser that always fails and a reply with no JSON. -/
theorem ai_determine_destination_default_witness :
    dget (ai_determine_destination (fun _ => none)
        (Except.ok "no json here")) "destination" = some "duckdb" ∧
    ∃ t, dget (ai_determine_destination (fun _ => none)
        (Except.ok "no json here")) "table_name" = some t ∧ t ≠ "" :=
  ai_determine_destination_default (fun _ => none) (Except.ok "no json here")
    (fun _ => rfl)

/-! ## Claim C7: unsupported destinations -/

/-- C7, counterexample.  A Sink Router selection that parses successfully
but names an unsupported destination kind (`sqlite`) makes `load` raise
`ValueError("Unsupported destination: sqlite")` — it does **not** fall
back to a safe default, contradicting the claim that an unsupported
selection never aborts the Load stage. -/
theorem load_claim_counterexample :
    LoadAgent.load (fun _ => some [("destination", "sqlite")])
        (Except.ok "\x7b\x7d") ⟨[], 0⟩ none [] [] =
      Except.error "Unsupported destination: sqlite" := by decide

/-- C7, amended.  Only malformed or non-JSON router replies degrade to
the duckdb default.  A resolved destination outside
`{duckdb, csv, excel, parquet}` — whether passed explicitly or selected
by the router — raises `ValueError("Unsupported destination: …")` and
aborts the Load stage; each of the four supported kinds dispatches
without raising. -/
theorem load_destination_dispatch
    (parse : String → Option (List (String × String)))
    (reply : Except String String) (df : Df)
    (kwargs : List (String × String)) (wh : List (String × Df)) :
    (∀ d, d ≠ "duckdb" → d ≠ "csv" → d ≠ "excel" → d ≠ "parquet" →
      LoadAgent.load parse reply df (some d) kwargs wh =
        Except.error ("Unsupported destination: " ++ d)) ∧
    (∀ d, (d = "duckdb" ∨ d = "csv" ∨ d = "excel" ∨ d = "parquet") →
      ∃ y, LoadAgent.load parse reply df (some d) kwargs wh = Except.ok y) ∧
    ((∀ s, parse s = none) →
      (LoadAgent.load parse reply df none kwargs wh).isOk = true ∧
      ((LoadAgent.load parse reply df none kwargs wh).toOption.map Prod.fst =
          some "duckdb:result" ∨
        (LoadAgent.load parse reply df none kwargs wh).toOption.map Prod.fst =
          some "duckdb:ai_result")) := by
  refine ⟨?_, ?_, ?_⟩
  · intro d h1 h2 h3 h4
    simp [LoadAgent.load, h1, h2, h3, h4]
  · intro d hd
    rcases hd with rfl | rfl | rfl | rfl
    · exact ⟨_, rfl⟩
    · exact ⟨_, rfl⟩
    · exact ⟨_, rfl⟩
    · exact ⟨_, rfl⟩
  · intro hp
    cases reply with
    | error e => exact ⟨rfl, Or.inl rfl⟩
    | ok text =>
        have hinfo : ai_determine_destination parse (Except.ok text) =
            [("destination", "duckdb"), ("table_name", "result"),
             ("reason", "Fallback")] ∨
            ai_determine_destination parse (Except.ok text) =
            [("destination", "duckdb"), ("table_name", "ai_result"),
             ("reason", "Default destination")] := by
          simp only [ai_determine_destination]
          rcases hb : extractBraceSpan text.toList with _ | span
          · right; rfl
          · left; simp only [hp]
        rcases hinfo with h | h
        · constructor
          · simp only [LoadAgent.load]; rw [h]; exact rfl
          · left; simp only [LoadAgent.load]; rw [h]; exact rfl
        · constructor
          · simp only [LoadAgent.load]; rw [h]; exact rfl
          · right; simp only [LoadAgent.load]; rw [h]; exact rfl

/-- C7, witness for the amended theorem at concrete destinations. -/
theorem load_destination_dispatch_witness :
    LoadAgent.load (fun _ => none) (Except.ok "r") ⟨[], 0⟩ (some "sqlite") [] [] =
      Except.error "Unsupported destination: sqlite" ∧
    (∃ y, LoadAgent.load (fun _ => none) (Except.ok "r") ⟨[], 0⟩ (some "csv") [] [] =
      Except.ok y) ∧
    ((LoadAgent.load (fun _ => none) (Except.ok "r") ⟨[], 0⟩ none [] []).isOk =
        true ∧
      ((LoadAgent.load (fun _ => none) (Except.ok "r") ⟨[], 0⟩ none []
            []).toOption.map Prod.fst = some "duckdb:result" ∨
        (LoadAgent.load (fun _ => none) (Except.ok "r") ⟨[], 0⟩ none []
            []).toOption.map Prod.fst = some "duckdb:ai_result")) :=
  ⟨(load_destination_dispatch (fun _ => none) (Except.ok "r") ⟨[], 0⟩ [] []).1
      "sqlite" (by decide) (by decide) (by decide) (by decide),
   (load_destination_dispatch (fun _ => none) (Except.ok "r") ⟨[], 0⟩ [] []).2.1
      "csv" (Or.inr (Or.inl rfl)),
   (load_destination_dispatch (fun _ => none) (Except.ok "r") ⟨[], 0⟩ [] []).2.2
      (fun _ => rfl)⟩

/-! ## Claim C10: DuckDB load mutates the caller's DataFrame -/

/-- C10.  `load_to_duckdb` assigns the sanitized column names to the
caller's DataFrame (`df.columns = [...]` mutates the argument object, not
a copy): the caller-visible post-state of the DataFrame carries the
sanitized names, so whenever sanitization changes any column name the
input table does not survive a Load unchanged. -/
theorem load_to_duckdb_mutates_caller (df : Df) (tn mode : String)
    (wh : List (String × Df)) :
    (load_to_duckdb df tn mode wh).1.columns =
      df.columns.map sanitize_column_name ∧
    (load_to_duckdb df tn mode wh).1.rows = df.rows ∧
    (df.columns.map sanitize_column_name ≠ df.columns →
      (load_to_duckdb df tn mode wh).1 ≠ df) := by
  refine ⟨rfl, rfl, ?_⟩
  intro hne heq
  exact hne (congrArg Df.columns heq)

/-- C10, witness: a DataFrame with column `"My Col"`, renamed in place to
`"my_col"` by the Load. -/
theorem load_to_duckdb_mutates_caller_witness :
    (["My Col".toList].map sanitize_column_name ≠ ["My Col".toList]) ∧
    (load_to_duckdb ⟨["My Col".toList], 3⟩ "t" "replace" []).1 ≠
      (⟨["My Col".toList], 3⟩ : Df) :=
  ⟨by decide,
   (load_to_duckdb_mutates_caller ⟨["My Col".toList], 3⟩ "t" "replace" []).2.2
     (by decide)⟩

/-! ## Claim C6: the Pipeline Run Record on failure -/

/-- C6, counterexample.  A run whose transform stage raises: the returned
record has top-level status `failed`, but `stages` has **no** entry for
`transform` at all (let alone one with status `failed` and an error
message), and `duration_seconds` is not set — the failure path of
`ETLPipeline.run` records the error only at top level and skips the
duration computation. -/
theorem pipeline_run_claim_counterexample :
    (ETLPipeline.run (Except.ok [("a", ⟨[], 1⟩)]) (Except.error "boom")
        (Except.ok "duckdb:result_table") (Except.ok "summary")
        "q" false false true).status = some "failed" ∧
    (ETLPipeline.run (Except.ok [("a", ⟨[], 1⟩)]) (Except.error "boom")
        (Except.ok "duckdb:result_table") (Except.ok "summary")
        "q" false false true).stages.lookup "transform" = none ∧
    (ETLPipeline.run (Except.ok [("a", ⟨[], 1⟩)]) (Except.error "boom")
        (Except.ok "duckdb:result_table") (Except.ok "summary")
        "q" false false true).hasDuration = false := by
  refine ⟨by decide, by decide, by decide⟩

/-- C6, amended.  Every run returns a record (never a silent crash):
either the success record (status `success`, an end time and a duration),
or a failure record with top-level status `failed`, the raised error
message at top level, an end time but **no** duration, and stage entries
only for the stages that completed before the failure (every recorded
stage status is `success` or `skipped` — the failing stage gets no
`failed` entry of its own). -/
theorem pipeline_run_failure_record
    (extractRes : Except String (List (String × Df)))
    (transformRes : Except String Df) (loadRes : Except String String)
    (analyzeRes : Except String String) (q : String)
    (st sl an : Bool) (r : RunRecord)
    (hr : r = ETLPipeline.run extractRes transformRes loadRes analyzeRes
      q st sl an) :
    (r.status = some "success" ∧ r.error = none ∧ r.hasEndTime = true ∧
      r.hasDuration = true) ∨
    (r.status = some "failed" ∧ (∃ e, r.error = some e) ∧
      r.hasEndTime = true ∧ r.hasDuration = false ∧
      r.stages.all (fun p => p.2 == "success" || p.2 == "skipped") = true) := by
  subst hr
  rcases extractRes with e | data
  · exact Or.inr ⟨rfl, ⟨e, rfl⟩, rfl, rfl, rfl⟩
  · rcases data with _ | ⟨p, data'⟩
    · exact Or.inr ⟨rfl, ⟨_, rfl⟩, rfl, rfl, rfl⟩
    · cases st <;> cases sl <;> cases an <;>
        rcases transformRes with et | dt <;>
        rcases loadRes with el | dl <;>
        rcases analyzeRes with ea | da <;>
        first
          | exact Or.inl ⟨rfl, rfl, rfl, rfl⟩
          | exact Or.inr ⟨rfl, ⟨_, rfl⟩, rfl, rfl, rfl⟩

/-- C6, witness: the amended theorem at a concrete run whose transform
stage raises `"boom"`. -/
theorem pipeline_run_failure_record_witness :
    ((ETLPipeline.run (Except.ok [("a", ⟨[], 1⟩)]) (Except.error "boom")
        (Except.ok "x") (Except.ok "y") "q" false false true).status =
          some "success" ∧
      (ETLPipeline.run (Except.ok [("a", ⟨[], 1⟩)]) (Except.error "boom")
        (Except.ok "x") (Except.ok "y") "q" false false true).error = none ∧
      (ETLPipeline.run (Except.ok [("a", ⟨[], 1⟩)]) (Except.error "boom")
        (Except.ok "x") (Except.ok "y") "q" false false true).hasEndTime = true ∧
      (ETLPipeline.run (Except.ok [("a", ⟨[], 1⟩)]) (Except.error "boom")
        (Except.ok "x") (Except.ok "y") "q" false false true).hasDuration = true) ∨
    ((ETLPipeline.run (Except.ok [("a", ⟨[], 1⟩)]) (Except.error "boom")
        (Except.ok "x") (Except.ok "y") "q" false false true).status =
          some "failed" ∧
      (∃ e, (ETLPipeline.run (Except.ok [("a", ⟨[], 1⟩)]) (Except.error "boom")
        (Except.ok "x") (Except.ok "y") "q" false false true).error = some e) ∧
      (ETLPipeline.run (Except.ok [("a", ⟨[], 1⟩)]) (Except.error "boom")
        (Except.ok "x") (Except.ok "y") "q" false false true).hasEndTime = true ∧
      (ETLPipeline.run (Except.ok [("a", ⟨[], 1⟩)]) (Except.error "boom")
        (Except.ok "x") (Except.ok "y") "q" false false true).hasDuration = false ∧
      (ETLPipeline.run (Except.ok [("a", ⟨[], 1⟩)]) (Except.error "boom")
        (Except.ok "x") (Except.ok "y") "q" false false true).stages.all
          (fun p => p.2 == "success" || p.2 == "skipped") = true) :=
  pipeline_run_failure_record (Except.ok [("a", ⟨[], 1⟩)]) (Except.error "boom")
    (Except.ok "x") (Except.ok "y") "q" false false true _ rfl
